import Mathlib

/-!
Verification of the atopio-extra serialization utilities: the qualified
identifier codec (full form and naked form, with optional variants) and the
insecure JWT claims extractor.  Wire values are modelled as a JSON value
type; strings are modelled as lists of characters.  Behaviour of external
dependencies (the identifier library's grammar, the base64url engine and the
JSON (de)serializer) is modelled from the specification, which delegates to
them; everything else follows `src/lib.rs` and `src/types.rs`.
-/

namespace AtopioExtra

/-- Strings on the wire are modelled as lists of characters. -/
abbrev Str := List Char

/-- JSON wire values (numbers restricted to the unsigned integers the claims
model uses). -/
inductive Json where
  | null : Json
  | bool : Bool → Json
  | num : Nat → Json
  | str : Str → Json
  | arr : List Json → Json
  | obj : List (Str × Json) → Json

/-- Qualified identifier: a two-part record identifier with a table ("space")
and a key, mirroring the identifier library's record-id type. -/
structure RecordId where
  tb : Str
  key : Str
deriving DecidableEq

/-- Modelled from the spec: the identifier library's textual rendering of a
record identifier (its Display/to_string, an external dependency not under
src/) is the canonical full form, space + ":" + key. -/
def recordIdString (id : RecordId) : Str :=
  id.tb ++ ':' :: id.key

/-- Modelled from the spec: the identifier library's parser (an external
dependency not under src/) splits full-form text into a space-part and a
key-part.  The key is assumed to contain no unescaped separator, so the
key-part is the maximal separator-free non-empty suffix and the space-part is
the non-empty remainder before the final separator. -/
def parseRecordIdChars (s : Str) : Option RecordId :=
  let r := s.reverse
  let krev := r.takeWhile (fun c => c ≠ ':')
  if krev.length = r.length then none
  else
    let sprev := r.drop (krev.length + 1)
    if sprev = [] ∨ krev = [] then none
    else some ⟨sprev.reverse, krev.reverse⟩

/-- Errors surfaced by the field-level deserializers (the serde D::Error
domain, by kind). -/
inductive DeError where
  | malformedIdentifier : DeError
  | unexpectedType : DeError
  | custom : Str → DeError
deriving DecidableEq

/-- Deserialization of an optional record identifier from a JSON wire value,
modelling the Option::deserialize step of the adapters: null becomes absent,
a string is parsed by the identifier grammar, anything else is a type
error. -/
def decodeRecordIdWire : Json → Except DeError (Option RecordId)
  | Json.null => .ok none
  | Json.str s =>
    match parseRecordIdChars s with
    | some r => .ok (some r)
    | none => .error .malformedIdentifier
  | _ => .error .unexpectedType

/-- Deserializes a record identifier from the wire and returns its key,
erroring when the value is absent (lib.rs deserialize_record_id_naked). -/
def deserialize_record_id_naked (j : Json) : Except DeError Str :=
  match decodeRecordIdWire j with
  | .error e => .error e
  | .ok (some id) => .ok id.key
  | .ok none => .error (.custom ("RecordId cannot be None".data))

/-- Deserializes an optional record identifier from the wire, mapping absent
input to an absent result (lib.rs deserialize_record_id_naked_option). -/
def deserialize_record_id_naked_option (j : Json) : Except DeError (Option Str) :=
  match decodeRecordIdWire j with
  | .error e => .error e
  | .ok (some id) => .ok (some id.key)
  | .ok none => .ok none

/-- Serializes a record identifier as its full-form string
(lib.rs serialize_record_id). -/
def serialize_record_id (id : RecordId) : Json :=
  Json.str (recordIdString id)

/-- Serializes an optional record identifier as its full-form string when
present and null when absent (lib.rs serialize_record_id_option). -/
def serialize_record_id_option : Option RecordId → Json
  | some id => Json.str (recordIdString id)
  | none => Json.null

/-- Serializes a record identifier as its bare key
(lib.rs serialize_record_id_naked). -/
def serialize_record_id_naked (id : RecordId) : Json :=
  Json.str id.key

/-- Serializes an optional record identifier as its bare key when present and
null when absent (lib.rs serialize_record_id_naked_option). -/
def serialize_record_id_naked_option : Option RecordId → Json
  | some id => Json.str id.key
  | none => Json.null

/-- Splits a list at every occurrence of the separator, keeping empty
segments, as the token splitter does when walking the input on the separator
character: the result always has one more segment than there are separators,
and an empty input gives one empty segment. -/
def splitOnChar (sep : Char) : Str → List Str
  | [] => [[]]
  | c :: cs =>
    if c = sep then [] :: splitOnChar sep cs
    else
      match splitOnChar sep cs with
      | [] => [[c]]
      | s :: rest => (c :: s) :: rest

/-- Modelled from the spec: the value of a character in the URL-safe base64
alphabet of the external base64 engine, or none for characters outside the
alphabet (padding characters included, since the encoding is non-padded). -/
def b64Index (c : Char) : Option Nat :=
  if 'A' ≤ c ∧ c ≤ 'Z' then some (c.toNat - 65)
  else if 'a' ≤ c ∧ c ≤ 'z' then some (c.toNat - 97 + 26)
  else if '0' ≤ c ∧ c ≤ '9' then some (c.toNat - 48 + 52)
  else if c = '-' then some 62
  else if c = '_' then some 63
  else none

/-- Turns a list of six-bit values into bytes, three bytes per group of four
values, discarding the spare bits of a trailing group of two or three
values. -/
def b64Bytes : List Nat → List Nat
  | a :: b :: c :: d :: rest =>
    (a * 4 + b / 16) :: ((b % 16) * 16 + c / 4) :: ((c % 4) * 64 + d) :: b64Bytes rest
  | [a, b] => [a * 4 + b / 16]
  | [a, b, c] => [a * 4 + b / 16, (b % 16) * 16 + c / 4]
  | [_] => []
  | [] => []

/-- Modelled from the spec: non-padded URL-safe base64 decoding by the
external base64 engine, which fails exactly when a character lies outside the
alphabet or the length is invalid for a non-padded encoding. -/
def b64Decode (s : Str) : Option (List Nat) :=
  if (s.all fun c => (b64Index c).isSome) ∧ s.length % 4 ≠ 1 then
    some (b64Bytes (s.map fun c => (b64Index c).getD 0))
  else none

/-- Whitespace characters of the JSON grammar. -/
def isJsonWs (c : Char) : Bool :=
  c = ' ' ∨ c = '\n' ∨ c = '\t' ∨ c = '\r'

/-- Resolution of a character escape inside a JSON string literal: the three
self-representing escapes plus newline, tab and carriage return. -/
def jsonEscChar (e : Char) : Option Char :=
  if e = 'n' then some '\n'
  else if e = 't' then some '\t'
  else if e = 'r' then some '\r'
  else if e = '"' ∨ e = '\\' ∨ e = '/' then some e
  else none

/-- Parses the body of a JSON string literal up to its closing quote. -/
def parseJsonString : Nat → Str → Option (Str × Str)
  | _, [] => none
  | 0, _ => none
  | fuel + 1, c :: cs =>
    if c = '"' then some ([], cs)
    else if c = '\\' then
      match cs with
      | [] => none
      | e :: cs2 =>
        match jsonEscChar e with
        | none => none
        | some r => (parseJsonString fuel cs2).map fun p => (r :: p.1, p.2)
    else (parseJsonString fuel cs).map fun p => (c :: p.1, p.2)

/-- Numeric value of a list of decimal digit characters. -/
def digitsToNat (acc : Nat) : Str → Nat
  | [] => acc
  | c :: cs => digitsToNat (acc * 10 + (c.toNat - 48)) cs

mutual

/-- Modelled from the spec: recursive-descent parser for the structured (JSON)
payload data, standing in for the external JSON deserializer; parses one value
and returns the remaining input. -/
def parseJsonValue : Nat → Str → Option (Json × Str)
  | 0, _ => none
  | fuel + 1, s =>
    match s.dropWhile isJsonWs with
    | [] => none
    | c :: cs =>
      if c = 'n' then
        match cs with
        | 'u' :: 'l' :: 'l' :: rest => some (Json.null, rest)
        | _ => none
      else if c = 't' then
        match cs with
        | 'r' :: 'u' :: 'e' :: rest => some (Json.bool true, rest)
        | _ => none
      else if c = 'f' then
        match cs with
        | 'a' :: 'l' :: 's' :: 'e' :: rest => some (Json.bool false, rest)
        | _ => none
      else if c = '"' then
        (parseJsonString (cs.length + 1) cs).map fun p => (Json.str p.1, p.2)
      else if c.isDigit then
        some (Json.num (digitsToNat 0 (c :: cs.takeWhile Char.isDigit)),
          cs.dropWhile Char.isDigit)
      else if c = '[' then
        match cs.dropWhile isJsonWs with
        | ']' :: rest => some (Json.arr [], rest)
        | s2 => (parseJsonElems fuel s2).map fun p => (Json.arr p.1, p.2)
      else if c = '{' then
        match cs.dropWhile isJsonWs with
        | '}' :: rest => some (Json.obj [], rest)
        | s2 => (parseJsonMembers fuel s2).map fun p => (Json.obj p.1, p.2)
      else none

/-- Parses the comma-separated elements of a JSON array after its opening
bracket, closing bracket included. -/
def parseJsonElems : Nat → Str → Option (List Json × Str)
  | 0, _ => none
  | fuel + 1, s =>
    match parseJsonValue fuel s with
    | none => none
    | some (v, rest) =>
      match rest.dropWhile isJsonWs with
      | ',' :: rest2 =>
        (parseJsonElems fuel rest2).map fun p => (v :: p.1, p.2)
      | ']' :: rest2 => some ([v], rest2)
      | _ => none

/-- Parses the comma-separated members of a JSON object after its opening
brace, closing brace included. -/
def parseJsonMembers : Nat → Str → Option (List (Str × Json) × Str)
  | 0, _ => none
  | fuel + 1, s =>
    match s.dropWhile isJsonWs with
    | '"' :: s1 =>
      match parseJsonString (s1.length + 1) s1 with
      | none => none
      | some (k, rest) =>
        match rest.dropWhile isJsonWs with
        | ':' :: rest1 =>
          match parseJsonValue fuel rest1 with
          | none => none
          | some (v, rest2) =>
            match rest2.dropWhile isJsonWs with
            | ',' :: rest3 =>
              (parseJsonMembers fuel rest3).map fun p => ((k, v) :: p.1, p.2)
            | '}' :: rest3 => some ([(k, v)], rest3)
            | _ => none
        | _ => none
    | _ => none

end

/-- Modelled from the spec: deserialization of a whole byte buffer as one
structured value, standing in for the external JSON deserializer's
entry point; the bytes must hold exactly one value up to trailing
whitespace. -/
def parseJsonBytes (bytes : List Nat) : Option Json :=
  let chars := bytes.map Char.ofNat
  match parseJsonValue (chars.length + 1) chars with
  | some (j, rest) => if rest.dropWhile isJsonWs = [] then some j else none
  | none => none

/-- Claims record carried in the token's payload segment, generic over the
caller's access-claims type (types.rs SurrealJWTClaims). -/
structure SurrealJWTClaims (T : Type) where
  iat : Nat
  nbf : Nat
  exp : Nat
  iss : Str
  jti : Str
  ns : Str
  db : Str
  ac : T
  id : Str

/-- Wire key of the issued-at claim. -/
def iatKey : Str := "iat".data

/-- Wire key of the not-before claim. -/
def nbfKey : Str := "nbf".data

/-- Wire key of the expiration claim. -/
def expKey : Str := "exp".data

/-- Wire key of the issuer claim. -/
def issKey : Str := "iss".data

/-- Wire key of the token-id claim. -/
def jtiKey : Str := "jti".data

/-- Wire key of the namespace claim (upper case on the wire). -/
def nsKey : Str := "NS".data

/-- Wire key of the database claim (upper case on the wire). -/
def dbKey : Str := "DB".data

/-- Wire key of the access-claims payload (upper case on the wire). -/
def acKey : Str := "AC".data

/-- Wire key of the subject identifier (upper case on the wire). -/
def idKey : Str := "ID".data

/-- The nine wire keys the claims model requires. -/
def requiredKeys : List Str :=
  [iatKey, nbfKey, expKey, issKey, jtiKey, nsKey, dbKey, acKey, idKey]

/-- First value bound to a key in a JSON object's member list, by exact
(case-sensitive) key equality. -/
def jLookup (kvs : List (Str × Json)) (k : Str) : Option Json :=
  match kvs with
  | [] => none
  | p :: rest => if p.1 = k then some p.2 else jLookup rest k

/-- Shape of an unsigned-integer claim field. -/
def asNat : Json → Option Nat
  | Json.num n => some n
  | _ => none

/-- Shape of a string claim field. -/
def asStr : Json → Option Str
  | Json.str s => some s
  | _ => none

/-- Modelled from the spec: structural deserialization of a claims record
from a JSON value (the external JSON deserializer's derived struct decoding),
requiring every one of the nine wire keys with its exact case-sensitive name
and shape, never defaulting a missing field, and ignoring unknown keys.  The
caller's access-claims decoding is the function argument. -/
def claimsFromJson {T : Type} (dec : Json → Option T) :
    Json → Option (SurrealJWTClaims T)
  | Json.obj kvs =>
    ((jLookup kvs iatKey).bind asNat).bind fun iat =>
    ((jLookup kvs nbfKey).bind asNat).bind fun nbf =>
    ((jLookup kvs expKey).bind asNat).bind fun exp =>
    ((jLookup kvs issKey).bind asStr).bind fun iss =>
    ((jLookup kvs jtiKey).bind asStr).bind fun jti =>
    ((jLookup kvs nsKey).bind asStr).bind fun ns =>
    ((jLookup kvs dbKey).bind asStr).bind fun db =>
    (jLookup kvs acKey).bind fun acj =>
    (dec acj).bind fun ac =>
    ((jLookup kvs idKey).bind asStr).bind fun id =>
    some ⟨iat, nbf, exp, iss, jti, ns, db, ac, id⟩
  | _ => none

/-- Error kinds of the claims extractor. -/
inductive JWTError where
  | malformedToken : JWTError
  | invalidEncoding : JWTError
  | schemaMismatch : JWTError
deriving DecidableEq

/-- Decodes a JWT payload without any signature or timestamp validation
(lib.rs decode_payload_insecurely): split the token on the separator, take
the second segment, base64url-decode it and deserialize the bytes as a
claims record. -/
def decode_payload_insecurely {T : Type} (dec : Json → Option T)
    (token : Str) : Except JWTError (SurrealJWTClaims T) :=
  match (splitOnChar '.' token)[1]? with
  | none => .error .malformedToken
  | some seg =>
    match b64Decode seg with
    | none => .error .invalidEncoding
    | some bytes =>
      match (parseJsonBytes bytes).bind (claimsFromJson dec) with
      | none => .error .schemaMismatch
      | some c => .ok c

/-! Helper lemmas about takeWhile, dropWhile and the identifier grammar. -/

theorem takeWhile_append_cons_eq {α : Type} (p : α → Bool) (l1 : List α) (x : α)
    (l2 : List α) (h1 : ∀ a ∈ l1, p a = true) (hx : p x = false) :
    (l1 ++ x :: l2).takeWhile p = l1 := by
  induction l1 with
  | nil => simp [List.takeWhile, hx]
  | cons c cs ih =>
    have hc : p c = true := h1 c (List.mem_cons_self c cs)
    simp only [List.cons_append, List.takeWhile, hc]
    have := ih (fun a ha => h1 a (List.mem_cons_of_mem c ha))
    simp [this]

theorem dropWhile_eq_cons_head_false {α : Type} (p : α → Bool) :
    ∀ (l : List α) (x : α) (xs : List α), l.dropWhile p = x :: xs → p x = false := by
  intro l
  induction l with
  | nil => intro x xs h; simp [List.dropWhile] at h
  | cons c cs ih =>
    intro x xs h
    by_cases hc : p c = true
    · exact ih x xs (by simpa [List.dropWhile, hc] using h)
    · have hfalse : p c = false := by simpa using hc
      simp [List.dropWhile, hfalse] at h
      simpa [← h.1] using hfalse

theorem mem_of_takeWhile_mem {α : Type} (p : α → Bool) :
    ∀ (l : List α) (a : α), a ∈ l.takeWhile p → p a = true := by
  intro l
  induction l with
  | nil => intro a h; simp [List.takeWhile] at h
  | cons c cs ih =>
    intro a h
    by_cases hc : p c = true
    · simp only [List.takeWhile, hc] at h
      rcases List.mem_cons.mp h with h | h
      · simpa [h] using hc
      · exact ih a h
    · have hfalse : p c = false := by simpa using hc
      simp [List.takeWhile, hfalse] at h

theorem parseRecordIdChars_eq_some_iff (s sp k : Str) :
    parseRecordIdChars s = some ⟨sp, k⟩ ↔
      s = sp ++ ':' :: k ∧ sp ≠ [] ∧ k ≠ [] ∧ ':' ∉ k := by
  constructor
  · intro h
    unfold parseRecordIdChars at h
    simp only [] at h
    split at h
    · exact absurd h (by simp)
    · next hlen =>
      split at h
      · exact absurd h (by simp)
      · next hguard =>
        push_neg at hguard
        obtain ⟨hsp, hk⟩ := hguard
        -- name the takeWhile prefix and the rest of the reversed string
        set r := s.reverse with hr
        set krev := r.takeWhile (fun c => c ≠ ':') with hkrev
        have hdec : krev ++ r.dropWhile (fun c => c ≠ ':') = r := by
          rw [hkrev]; exact List.takeWhile_append_dropWhile _ _
        have hdne : r.dropWhile (fun c => c ≠ ':') ≠ [] := by
          intro hnil
          rw [hnil, List.append_nil] at hdec
          exact hlen (by rw [hdec])
        obtain ⟨x, xs, hxs⟩ := List.exists_cons_of_ne_nil hdne
        have hx : (fun c => decide (c ≠ ':')) x = false :=
          dropWhile_eq_cons_head_false _ r x xs hxs
        have hxcolon : x = ':' := by simpa using hx
        subst hxcolon
        have hrsplit : r = krev ++ ':' :: xs := by rw [← hdec, hxs]
        have hdropxs : r.drop (krev.length + 1) = xs := by
          rw [hrsplit]
          have : krev ++ ':' :: xs = (krev ++ [':']) ++ xs := by simp
          rw [this]
          have hlen2 : krev.length + 1 = (krev ++ [':']).length := by simp
          rw [hlen2, List.drop_left]
        rw [hdropxs] at h hsp
        have hinj := Option.some.inj h
        have hspv : sp = xs.reverse := by
          have := congrArg RecordId.tb hinj; simpa using this.symm
        have hkv : k = krev.reverse := by
          have := congrArg RecordId.key hinj; simpa using this.symm
        refine ⟨?_, ?_, ?_, ?_⟩
        · have : s = r.reverse := by rw [hr, List.reverse_reverse]
          rw [this, hrsplit, hspv, hkv]
          simp
        · rw [hspv]; simpa using hsp
        · rw [hkv]; simpa using hk
        · rw [hkv]
          intro hmem
          have := mem_of_takeWhile_mem _ r ':' (by simpa using hmem)
          simp at this
  · rintro ⟨hs, hsp, hk, hnc⟩
    subst hs
    unfold parseRecordIdChars
    have hrev : (sp ++ ':' :: k).reverse = k.reverse ++ ':' :: sp.reverse := by
      simp
    simp only [hrev]
    have htake : (k.reverse ++ ':' :: sp.reverse).takeWhile (fun c => c ≠ ':') =
        k.reverse := by
      refine takeWhile_append_cons_eq _ _ _ _ ?_ (by simp)
      intro a ha
      have : a ∈ k := List.mem_reverse.mp ha
      simp only [decide_eq_true_eq]
      intro hcol
      exact hnc (hcol ▸ this)
    rw [htake]
    have hlen : k.reverse.length ≠ (k.reverse ++ ':' :: sp.reverse).length := by
      simp
    rw [if_neg hlen]
    have hdrop : (k.reverse ++ ':' :: sp.reverse).drop (k.reverse.length + 1) =
        sp.reverse := by
      have : k.reverse ++ ':' :: sp.reverse = (k.reverse ++ [':']) ++ sp.reverse := by
        simp
      rw [this]
      have hlen2 : k.reverse.length + 1 = (k.reverse ++ [':']).length := by simp
      rw [hlen2, List.drop_left]
    rw [hdrop]
    have hguard : ¬(sp.reverse = [] ∨ k.reverse = []) := by
      push_neg
      constructor
      · simpa using hsp
      · simpa using hk
    rw [if_neg hguard]
    simp

theorem parseRecordIdChars_eq_none_of_no_colon (s : Str) (hs : ':' ∉ s) :
    parseRecordIdChars s = none := by
  cases hp : parseRecordIdChars s with
  | none => rfl
  | some r =>
    obtain ⟨hsplit, -, -, -⟩ := (parseRecordIdChars_eq_some_iff s r.tb r.key).mp hp
    have : ':' ∈ s := by
      rw [hsplit]
      exact List.mem_append_right _ (List.mem_cons_self _ _)
    exact absurd this hs

/-- C1: decoding the full-form encoding of an identifier with non-empty space
and non-empty, separator-free key yields the identifier back. -/
theorem full_form_round_trip (id : RecordId) (hsp : id.tb ≠ []) (hk : id.key ≠ [])
    (hnc : ':' ∉ id.key) :
    decodeRecordIdWire (serialize_record_id id) = .ok (some id) := by
  have hp : parseRecordIdChars (recordIdString id) = some ⟨id.tb, id.key⟩ :=
    (parseRecordIdChars_eq_some_iff _ _ _).mpr ⟨rfl, hsp, hk, hnc⟩
  simp [serialize_record_id, decodeRecordIdWire, hp]

theorem full_form_round_trip_witness :
    decodeRecordIdWire (serialize_record_id ⟨"user".data, "abc123".data⟩) =
      .ok (some ⟨"user".data, "abc123".data⟩) :=
  full_form_round_trip ⟨"user".data, "abc123".data⟩ (by decide) (by decide) (by decide)

/-- C2: full-form decode returns the two-part identifier exactly on the wire
strings the identifier grammar splits into a non-empty space-part and a
non-empty separator-free key-part, and fails with the malformed-identifier
condition on every other string. -/
theorem full_form_decode_postcondition (s sp k : Str) :
    (decodeRecordIdWire (Json.str s) = .ok (some ⟨sp, k⟩) ↔
      (s = sp ++ ':' :: k ∧ sp ≠ [] ∧ k ≠ [] ∧ ':' ∉ k)) ∧
    ((¬ ∃ sp2 k2, s = sp2 ++ ':' :: k2 ∧ sp2 ≠ [] ∧ k2 ≠ [] ∧ ':' ∉ k2) →
      decodeRecordIdWire (Json.str s) = .error .malformedIdentifier) := by
  constructor
  · constructor
    · intro h
      cases hp : parseRecordIdChars s with
      | none => rw [decodeRecordIdWire, hp] at h; exact absurd h (by simp)
      | some r =>
        rw [decodeRecordIdWire, hp] at h
        have hr : r = ⟨sp, k⟩ := by
          have := Except.ok.inj h
          exact Option.some.inj this
        exact (parseRecordIdChars_eq_some_iff s sp k).mp (hr ▸ hp)
    · intro hsplit
      have hp := (parseRecordIdChars_eq_some_iff s sp k).mpr hsplit
      simp [decodeRecordIdWire, hp]
  · intro hno
    cases hp : parseRecordIdChars s with
    | none => simp [decodeRecordIdWire, hp]
    | some r =>
      obtain ⟨hs, h1, h2, h3⟩ := (parseRecordIdChars_eq_some_iff s r.tb r.key).mp hp
      exact absurd ⟨r.tb, r.key, hs, h1, h2, h3⟩ hno

theorem full_form_decode_postcondition_witness :
    decodeRecordIdWire (Json.str "user:abc123".data) =
        .ok (some ⟨"user".data, "abc123".data⟩) ∧
      decodeRecordIdWire (Json.str "abc".data) = .error .malformedIdentifier :=
  ⟨(full_form_decode_postcondition "user:abc123".data "user".data "abc123".data).1.mpr
      (by refine ⟨?_, ?_, ?_, ?_⟩ <;> decide),
   (full_form_decode_postcondition "abc".data [] []).2 (by
      rintro ⟨sp2, k2, hs, -, -, -⟩
      have : ':' ∈ "abc".data := by
        rw [hs]; exact List.mem_append_right _ (List.mem_cons_self _ _)
      exact absurd this (by decide))⟩

/-- C3: naked-form encoding always yields exactly the bare key and never
fails, and no decode operation of the library reconstructs an identifier from
a bare key wire string: both decoders reject any separator-free string. -/
theorem naked_form_one_directional (id : RecordId) (s : Str) (hs : ':' ∉ s) :
    serialize_record_id_naked id = Json.str id.key ∧
      deserialize_record_id_naked (Json.str s) = .error .malformedIdentifier ∧
      deserialize_record_id_naked_option (Json.str s) =
        .error .malformedIdentifier := by
  have hp := parseRecordIdChars_eq_none_of_no_colon s hs
  refine ⟨rfl, ?_, ?_⟩ <;>
    simp [deserialize_record_id_naked, deserialize_record_id_naked_option,
      decodeRecordIdWire, hp]

theorem naked_form_one_directional_witness :
    serialize_record_id_naked ⟨"user".data, "abc123".data⟩ =
        Json.str "abc123".data ∧
      deserialize_record_id_naked (Json.str "abc123".data) =
        .error .malformedIdentifier ∧
      deserialize_record_id_naked_option (Json.str "abc123".data) =
        .error .malformedIdentifier :=
  naked_form_one_directional ⟨"user".data, "abc123".data⟩ "abc123".data (by decide)

/-- C8: each optional encoder maps an absent identifier to the explicit null
wire value, and the optional decoder maps null back to an absent result
rather than failing. -/
theorem optional_absence_preserved :
    serialize_record_id_option none = Json.null ∧
      serialize_record_id_naked_option none = Json.null ∧
      deserialize_record_id_naked_option Json.null = .ok none :=
  ⟨rfl, rfl, rfl⟩

/-- C9: decoding a required identifier field from the null wire value fails
with an error instead of producing an absent or defaulted value. -/
theorem required_field_rejects_null :
    deserialize_record_id_naked Json.null =
      .error (.custom ("RecordId cannot be None".data)) :=
  rfl

/-! Helper lemmas about the token splitter and the base64 decoder. -/

theorem splitOnChar_ne_nil (sep : Char) (l : Str) : splitOnChar sep l ≠ [] := by
  cases l with
  | nil => simp [splitOnChar]
  | cons c cs =>
    by_cases hc : c = sep
    · simp [splitOnChar, hc]
    · simp only [splitOnChar, hc, if_false]
      cases splitOnChar sep cs <;> simp

theorem splitOnChar_cons_sep (sep c : Char) (cs : Str) (h : c = sep) :
    splitOnChar sep (c :: cs) = [] :: splitOnChar sep cs := by
  simp [splitOnChar, h]

theorem splitOnChar_cons_ne (sep c : Char) (cs s : Str) (rest : List Str)
    (h : ¬c = sep) (hs : splitOnChar sep cs = s :: rest) :
    splitOnChar sep (c :: cs) = (c :: s) :: rest := by
  simp [splitOnChar, h, hs]

theorem splitOnChar_length_lt_two_iff (sep : Char) (l : Str) :
    (splitOnChar sep l).length < 2 ↔ sep ∉ l := by
  induction l with
  | nil => simp [splitOnChar]
  | cons c cs ih =>
    by_cases hc : c = sep
    · rw [splitOnChar_cons_sep sep c cs hc]
      have hne := splitOnChar_ne_nil sep cs
      have hpos : 0 < (splitOnChar sep cs).length := List.length_pos.mpr hne
      simp only [List.length_cons]
      constructor
      · intro h; omega
      · intro h
        exact absurd (hc ▸ List.mem_cons_self c cs) h
    · rcases hsplit : splitOnChar sep cs with _ | ⟨s, rest⟩
      · exact absurd hsplit (splitOnChar_ne_nil sep cs)
      · rw [splitOnChar_cons_ne sep c cs s rest hc hsplit]
        rw [hsplit] at ih
        have hcs : ¬sep = c := fun h => hc h.symm
        constructor
        · intro hlen hm
          rcases List.mem_cons.mp hm with h | h
          · exact hcs h
          · exact ih.mp (by simpa using hlen) h
        · intro hm
          have := ih.mpr (fun hin => hm (List.mem_cons_of_mem c hin))
          simpa using this

/-- C4: the extractor fails with the malformed-token condition exactly when
splitting the token on the separator yields fewer than two segments, which
happens exactly when the token contains no separator; in particular the
input "no-dots" fails this way. -/
theorem malformed_token_condition (T : Type) (dec : Json → Option T)
    (token : Str) :
    (decode_payload_insecurely dec token = .error .malformedToken ↔
      (splitOnChar '.' token).length < 2) ∧
    ((splitOnChar '.' token).length < 2 ↔ '.' ∉ token) ∧
    decode_payload_insecurely dec ("no-dots".data) = .error .malformedToken := by
  refine ⟨?_, splitOnChar_length_lt_two_iff '.' token, rfl⟩
  constructor
  · intro h
    cases h1 : (splitOnChar '.' token)[1]? with
    | none =>
      have := List.getElem?_eq_none_iff.mp h1
      omega
    | some seg =>
      cases h2 : b64Decode seg with
      | none =>
        have hd : decode_payload_insecurely dec token = .error .invalidEncoding := by
          simp [decode_payload_insecurely, h1, h2]
        rw [hd] at h
        exact absurd h (by simp)
      | some bytes =>
        cases h3 : (parseJsonBytes bytes).bind (claimsFromJson dec) with
        | none =>
          have hd : decode_payload_insecurely dec token = .error .schemaMismatch := by
            simp [decode_payload_insecurely, h1, h2, h3]
          rw [hd] at h
          exact absurd h (by simp)
        | some c =>
          have hd : decode_payload_insecurely dec token = .ok c := by
            simp [decode_payload_insecurely, h1, h2, h3]
          rw [hd] at h
          exact absurd h (by simp)
  · intro h
    have h1 : (splitOnChar '.' token)[1]? = none :=
      List.getElem?_eq_none_iff.mpr (by omega)
    simp [decode_payload_insecurely, h1]

theorem b64Decode_eq_none_iff (seg : Str) :
    b64Decode seg = none ↔
      ((∃ c ∈ seg, b64Index c = none) ∨ seg.length % 4 = 1) := by
  by_cases hcond : (seg.all fun c => (b64Index c).isSome) ∧ seg.length % 4 ≠ 1
  · rw [b64Decode, if_pos hcond]
    have h1 : ¬ ∃ c ∈ seg, b64Index c = none := by
      rintro ⟨c, hc, hnone⟩
      have := List.all_eq_true.mp hcond.1 c hc
      rw [hnone] at this
      simp at this
    simp [h1, hcond.2]
  · rw [b64Decode, if_neg hcond]
    simp only [true_iff]
    rcases not_and_or.mp hcond with hna | hlen
    · left
      have : ¬ ∀ c ∈ seg, (b64Index c).isSome = true := by
        intro hall
        exact hna (List.all_eq_true.mpr hall)
      push_neg at this
      obtain ⟨c, hc, hns⟩ := this
      refine ⟨c, hc, ?_⟩
      cases h : b64Index c with
      | none => rfl
      | some v => rw [h] at hns; simp at hns
    · right
      exact not_ne_iff.mp hlen

/-- C5: when the token has a second segment, the extractor fails with the
invalid-encoding condition exactly when that segment contains a character
outside the non-padded URL-safe base64 alphabet or has a length invalid for
the encoding. -/
theorem invalid_encoding_condition (T : Type) (dec : Json → Option T)
    (token seg : Str) (h : (splitOnChar '.' token)[1]? = some seg) :
    decode_payload_insecurely dec token = .error .invalidEncoding ↔
      ((∃ c ∈ seg, b64Index c = none) ∨ seg.length % 4 = 1) := by
  rw [← b64Decode_eq_none_iff]
  cases h2 : b64Decode seg with
  | none =>
    have hd : decode_payload_insecurely dec token = .error .invalidEncoding := by
      simp [decode_payload_insecurely, h, h2]
    simp [hd]
  | some bytes =>
    cases h3 : (parseJsonBytes bytes).bind (claimsFromJson dec) with
    | none =>
      have hd : decode_payload_insecurely dec token = .error .schemaMismatch := by
        simp [decode_payload_insecurely, h, h2, h3]
      simp [hd]
    | some c =>
      have hd : decode_payload_insecurely dec token = .ok c := by
        simp [decode_payload_insecurely, h, h2, h3]
      simp [hd]

theorem invalid_encoding_condition_witness :
    (splitOnChar '.' ("a.invalid!!.c".data))[1]? = some ("invalid!!".data) ∧
      decode_payload_insecurely (fun j => some j) ("a.invalid!!.c".data) =
        .error .invalidEncoding :=
  ⟨by decide,
   (invalid_encoding_condition Json (fun j => some j) ("a.invalid!!.c".data)
      ("invalid!!".data) (by decide)).mpr (Or.inl ⟨'!', by decide, by decide⟩)⟩

/-! Helper lemmas about claims deserialization and key lookup. -/

theorem asNat_eq_some (v : Json) (n : Nat) : asNat v = some n ↔ v = Json.num n := by
  cases v <;> simp [asNat]

theorem asStr_eq_some (v : Json) (s : Str) : asStr v = some s ↔ v = Json.str s := by
  cases v <;> simp [asStr]

theorem claimsFromJson_inv {T : Type} (dec : Json → Option T) (j : Json)
    (c : SurrealJWTClaims T) (h : claimsFromJson dec j = some c) :
    ∃ kvs, j = Json.obj kvs ∧
      jLookup kvs iatKey = some (Json.num c.iat) ∧
      jLookup kvs nbfKey = some (Json.num c.nbf) ∧
      jLookup kvs expKey = some (Json.num c.exp) ∧
      jLookup kvs issKey = some (Json.str c.iss) ∧
      jLookup kvs jtiKey = some (Json.str c.jti) ∧
      jLookup kvs nsKey = some (Json.str c.ns) ∧
      jLookup kvs dbKey = some (Json.str c.db) ∧
      (∃ aj, jLookup kvs acKey = some aj ∧ dec aj = some c.ac) ∧
      jLookup kvs idKey = some (Json.str c.id) := by
  cases j with
  | obj kvs =>
    refine ⟨kvs, rfl, ?_⟩
    simp only [claimsFromJson, Option.bind_eq_some, Option.some.injEq] at h
    obtain ⟨iat, ⟨v1, hv1, hn1⟩, nbf, ⟨v2, hv2, hn2⟩, exp2, ⟨v3, hv3, hn3⟩,
      iss, ⟨v4, hv4, hs4⟩, jti, ⟨v5, hv5, hs5⟩, ns, ⟨v6, hv6, hs6⟩,
      db, ⟨v7, hv7, hs7⟩, acj, hacj, ac, hac, idv, ⟨v9, hv9, hs9⟩, heq⟩ := h
    subst heq
    rw [(asNat_eq_some v1 iat).mp hn1] at hv1
    rw [(asNat_eq_some v2 nbf).mp hn2] at hv2
    rw [(asNat_eq_some v3 exp2).mp hn3] at hv3
    rw [(asStr_eq_some v4 iss).mp hs4] at hv4
    rw [(asStr_eq_some v5 jti).mp hs5] at hv5
    rw [(asStr_eq_some v6 ns).mp hs6] at hv6
    rw [(asStr_eq_some v7 db).mp hs7] at hv7
    rw [(asStr_eq_some v9 idv).mp hs9] at hv9
    exact ⟨hv1, hv2, hv3, hv4, hv5, hv6, hv7, ⟨acj, hacj, hac⟩, hv9⟩
  | null => simp [claimsFromJson] at h
  | bool b => simp [claimsFromJson] at h
  | num n => simp [claimsFromJson] at h
  | str s => simp [claimsFromJson] at h
  | arr l => simp [claimsFromJson] at h

theorem claimsFromJson_of_lookups {T : Type} (dec : Json → Option T)
    (kvs : List (Str × Json)) (c : SurrealJWTClaims T) (aj : Json)
    (h1 : jLookup kvs iatKey = some (Json.num c.iat))
    (h2 : jLookup kvs nbfKey = some (Json.num c.nbf))
    (h3 : jLookup kvs expKey = some (Json.num c.exp))
    (h4 : jLookup kvs issKey = some (Json.str c.iss))
    (h5 : jLookup kvs jtiKey = some (Json.str c.jti))
    (h6 : jLookup kvs nsKey = some (Json.str c.ns))
    (h7 : jLookup kvs dbKey = some (Json.str c.db))
    (hac : jLookup kvs acKey = some aj) (hdec : dec aj = some c.ac)
    (h9 : jLookup kvs idKey = some (Json.str c.id)) :
    claimsFromJson dec (Json.obj kvs) = some c := by
  simp [claimsFromJson, h1, h2, h3, h4, h5, h6, h7, hac, hdec, h9, asNat, asStr]

theorem jLookup_append_of_some (l1 l2 : List (Str × Json)) (k : Str) (v : Json)
    (h : jLookup l1 k = some v) : jLookup (l1 ++ l2) k = some v := by
  induction l1 with
  | nil => simp [jLookup] at h
  | cons p rest ih =>
    by_cases hp : p.1 = k
    · simp only [jLookup, hp, if_true] at h
      simp [jLookup, hp, h]
    · simp only [jLookup, hp, if_false] at h
      simp only [List.cons_append, jLookup, hp, if_false]
      exact ih h

theorem jLookup_append_of_not_mem (l1 l2 : List (Str × Json)) (k : Str)
    (h : ∀ p ∈ l1, p.1 ≠ k) : jLookup (l1 ++ l2) k = jLookup l2 k := by
  induction l1 with
  | nil => rfl
  | cons p rest ih =>
    have hp : p.1 ≠ k := h p (List.mem_cons_self p rest)
    simp only [List.cons_append, jLookup, hp, if_false]
    exact ih (fun q hq => h q (List.mem_cons_of_mem p hq))

/-- C6: failures of the structured-payload step are reported as the
schema-mismatch condition, and a successful claims deserialization requires
every one of the nine case-sensitive wire keys to be present with the right
shape, so a missing required field is never defaulted. -/
theorem schema_mismatch_condition (T : Type) (dec : Json → Option T) :
    (∀ token seg bytes, (splitOnChar '.' token)[1]? = some seg →
        b64Decode seg = some bytes →
        (decode_payload_insecurely dec token = .error .schemaMismatch ↔
          (parseJsonBytes bytes).bind (claimsFromJson dec) = none)) ∧
    (∀ j c, claimsFromJson dec j = some c → ∃ kvs, j = Json.obj kvs ∧
      jLookup kvs iatKey = some (Json.num c.iat) ∧
      jLookup kvs nbfKey = some (Json.num c.nbf) ∧
      jLookup kvs expKey = some (Json.num c.exp) ∧
      jLookup kvs issKey = some (Json.str c.iss) ∧
      jLookup kvs jtiKey = some (Json.str c.jti) ∧
      jLookup kvs nsKey = some (Json.str c.ns) ∧
      jLookup kvs dbKey = some (Json.str c.db) ∧
      (∃ aj, jLookup kvs acKey = some aj ∧ dec aj = some c.ac) ∧
      jLookup kvs idKey = some (Json.str c.id)) := by
  constructor
  · intro token seg bytes h1 h2
    cases h3 : (parseJsonBytes bytes).bind (claimsFromJson dec) with
    | none =>
      have hd : decode_payload_insecurely dec token = .error .schemaMismatch := by
        simp [decode_payload_insecurely, h1, h2, h3]
      simp [hd]
    | some c =>
      have hd : decode_payload_insecurely dec token = .ok c := by
        simp [decode_payload_insecurely, h1, h2, h3]
      simp [hd]
  · exact fun j c h => claimsFromJson_inv dec j c h

theorem schema_mismatch_condition_witness :
    decode_payload_insecurely (fun j => some j) ("x.e30.y".data) =
      .error .schemaMismatch :=
  ((schema_mismatch_condition Json (fun j => some j)).1 ("x.e30.y".data)
      ("e30".data) [123, 125] (by decide) (by decide)).mpr rfl

set_option maxRecDepth 100000 in
/-- C7: extracting from the token whose middle segment is the base64url
encoding of the example claims object succeeds and yields the expected
issued-at, issuer, database and access-claims values. -/
theorem claims_extraction_success :
    ∃ c : SurrealJWTClaims Json,
      decode_payload_insecurely (fun j => some j)
          (("header.eyJpYXQiOjEsIm5iZiI6MiwiZXhwIjozLCJpc3MiOiJpc3N1ZXIiLCJqdGkiOiJqdGkiLCJOUyI6Im5zIiwiREIiOiJkYiIsIkFDIjp7InJvbGUiOiJhZG1pbiJ9LCJJRCI6InN1YmplY3QifQ.sig").data) =
        .ok c ∧
      c.iat = 1 ∧ c.iss = "issuer".data ∧ c.db = "db".data ∧
      c.ac = Json.obj [("role".data, Json.str "admin".data)] :=
  ⟨⟨1, 2, 3, "issuer".data, "jti".data, "ns".data, "db".data,
      Json.obj [("role".data, Json.str "admin".data)], "subject".data⟩,
    rfl, rfl, rfl, rfl, rfl⟩

/-- C10: a payload object whose nine required keys deserialize successfully
keeps deserializing to the same claims record when entries with unrecognized
keys are appended or prepended, so unknown keys are ignored rather than
causing a schema mismatch. -/
theorem unknown_keys_ignored (T : Type) (dec : Json → Option T)
    (kvs extras : List (Str × Json)) (c : SurrealJWTClaims T)
    (hex : ∀ p ∈ extras, p.1 ∉ requiredKeys)
    (h : claimsFromJson dec (Json.obj kvs) = some c) :
    claimsFromJson dec (Json.obj (kvs ++ extras)) = some c ∧
      claimsFromJson dec (Json.obj (extras ++ kvs)) = some c := by
  obtain ⟨kvs0, heq, h1, h2, h3, h4, h5, h6, h7, ⟨aj, hac, hdec⟩, h9⟩ :=
    claimsFromJson_inv dec _ c h
  injection heq with heq2
  subst heq2
  have hnot : ∀ kk, kk ∈ requiredKeys →
      jLookup (extras ++ kvs) kk = jLookup kvs kk := fun kk hkk =>
    jLookup_append_of_not_mem extras kvs kk
      (fun p hp hpk => (hex p hp) (hpk ▸ hkk))
  constructor
  · exact claimsFromJson_of_lookups dec _ c aj
      (jLookup_append_of_some _ _ _ _ h1) (jLookup_append_of_some _ _ _ _ h2)
      (jLookup_append_of_some _ _ _ _ h3) (jLookup_append_of_some _ _ _ _ h4)
      (jLookup_append_of_some _ _ _ _ h5) (jLookup_append_of_some _ _ _ _ h6)
      (jLookup_append_of_some _ _ _ _ h7) (jLookup_append_of_some _ _ _ _ hac)
      hdec (jLookup_append_of_some _ _ _ _ h9)
  · exact claimsFromJson_of_lookups dec _ c aj
      ((hnot iatKey (by simp [requiredKeys])).trans h1)
      ((hnot nbfKey (by simp [requiredKeys])).trans h2)
      ((hnot expKey (by simp [requiredKeys])).trans h3)
      ((hnot issKey (by simp [requiredKeys])).trans h4)
      ((hnot jtiKey (by simp [requiredKeys])).trans h5)
      ((hnot nsKey (by simp [requiredKeys])).trans h6)
      ((hnot dbKey (by simp [requiredKeys])).trans h7)
      ((hnot acKey (by simp [requiredKeys])).trans hac)
      hdec
      ((hnot idKey (by simp [requiredKeys])).trans h9)

theorem unknown_keys_ignored_witness :
    claimsFromJson (fun j => some j) (Json.obj
        ([(iatKey, Json.num 1), (nbfKey, Json.num 2), (expKey, Json.num 3),
          (issKey, Json.str "issuer".data), (jtiKey, Json.str "jti".data),
          (nsKey, Json.str "ns".data), (dbKey, Json.str "db".data),
          (acKey, Json.bool true), (idKey, Json.str "subject".data)] ++
         [("extra".data, Json.num 7)])) =
      some ⟨1, 2, 3, "issuer".data, "jti".data, "ns".data, "db".data,
        Json.bool true, "subject".data⟩ ∧
    claimsFromJson (fun j => some j) (Json.obj
        ([("extra".data, Json.num 7)] ++
         [(iatKey, Json.num 1), (nbfKey, Json.num 2), (expKey, Json.num 3),
          (issKey, Json.str "issuer".data), (jtiKey, Json.str "jti".data),
          (nsKey, Json.str "ns".data), (dbKey, Json.str "db".data),
          (acKey, Json.bool true), (idKey, Json.str "subject".data)])) =
      some ⟨1, 2, 3, "issuer".data, "jti".data, "ns".data, "db".data,
        Json.bool true, "subject".data⟩ :=
  unknown_keys_ignored Json (fun j => some j)
    [(iatKey, Json.num 1), (nbfKey, Json.num 2), (expKey, Json.num 3),
     (issKey, Json.str "issuer".data), (jtiKey, Json.str "jti".data),
     (nsKey, Json.str "ns".data), (dbKey, Json.str "db".data),
     (acKey, Json.bool true), (idKey, Json.str "subject".data)]
    [("extra".data, Json.num 7)]
    ⟨1, 2, 3, "issuer".data, "jti".data, "ns".data, "db".data,
      Json.bool true, "subject".data⟩
    (by decide) rfl

end AtopioExtra
